import Mathlib

/-!
Verification of the `hls` repository (`src/hls/__init__.py`) against its
natural-language specification.

The Python source is shallowly embedded below:

* Python `str` values are Lean `String`s; the Python string methods the
  source uses (`split`, `rsplit(sep, 1)`, `startswith`, `endswith`,
  `replace`, slicing, `bytes.fromhex`) are reimplemented structurally on
  `String.data` (a `List Char`), following CPython semantics, so that all
  definitions evaluate inside the kernel.
* `bytes` values are `List Nat` (each entry a byte value).
* Python exceptions are `Except String` (the string is the exception kind)
  or, where the surrounding state must survive the exception (the cache's
  partially written file), an explicit result record.
* The external HTTP transport (`requests`), Python's `urllib.parse.urljoin`
  and the progress bar (`tqdm`) are injected capabilities: the transport is
  a function `String → Except String (List Nat)` (or `→ Except String
  String` for the text view used by `BS.get_str`), and URL joining is a
  function parameter `uj : String → String → String`; the source only pipes
  them around, so the claims are stated for arbitrary such functions.
* The AES-128-CBC cipher provided by PyCryptodome (`AES.new(key, IV,
  MODE_CBC)` followed by `decrypt`) is embedded in full: the AES-128
  inverse cipher of FIPS-197 plus CBC chaining, including the documented
  PyCryptodome behaviour that one cipher object carries its chaining block
  from one `decrypt` call to the next.  The block decryption is checked
  against the FIPS-197 appendix C.1 vector below.
* The thread pool used by `MTDownloader.download` (a
  `ThreadPoolExecutor(max_workers=4)` with `wait(..., FIRST_COMPLETED)`)
  is modelled as a small labelled transition system over traces of task
  start / task finish / driver observation events; see `DlEv` below.
-/

/-! ## Python string primitives -/

/-- `str.split(sep)` on character lists, CPython semantics for a non-empty
separator: non-overlapping matches, scanned left to right, keeping empty
parts.  `fuel` is an upper bound on the number of steps; callers pass
`length + 1`, which always suffices since every step consumes at least one
character. -/
def splitL (sep : List Char) : Nat → List Char → List Char → List (List Char)
  | _, [], acc => [acc.reverse]
  | 0, l, acc => [acc.reverse ++ l]
  | f+1, c :: rest, acc =>
    if sep.isPrefixOf (c :: rest) then
      acc.reverse :: splitL sep f (List.drop sep.length (c :: rest)) []
    else
      splitL sep f rest (c :: acc)

/-- Python `s.split(sep)` for a non-empty `sep`. -/
def pySplit (s sep : String) : List String :=
  (splitL sep.data (s.data.length + 1) s.data []).map (fun l => ⟨l⟩)

/-- Python `s.startswith(p)`. -/
def pyStartswith (s p : String) : Bool := p.data.isPrefixOf s.data

/-- Python `s.endswith(p)`. -/
def pyEndswith (s p : String) : Bool := p.data.isSuffixOf s.data

/-- Replace all non-overlapping occurrences of `old` (non-empty) by `new`,
left to right — the core of Python `s.replace(old, new)`. -/
def replL (old new : List Char) : Nat → List Char → List Char
  | _, [] => []
  | 0, l => l
  | f+1, c :: rest =>
    if old.isPrefixOf (c :: rest) then
      new ++ replL old new f (List.drop old.length (c :: rest))
    else
      c :: replL old new f rest

/-- Python `s.replace(old, new)` for a non-empty `old`. -/
def pyReplace (s old new : String) : String :=
  ⟨replL old.data new.data (s.data.length + 1) s.data⟩

/-- Python `s[n:]` (slicing counts code points). -/
def pyDrop (s : String) (n : Nat) : String := ⟨s.data.drop n⟩

/-- Python `sep.join(parts)`. -/
def pyJoin (sep : String) : List String → String
  | [] => ""
  | [p] => p
  | p :: q :: rest => p ++ sep ++ pyJoin sep (q :: rest)

/-- Python `s.rsplit("/", 1)`: `none` when `s` contains no `/` (where the
source's tuple unpacking would raise `ValueError`), otherwise the part
before the last `/` and the part after it. -/
def rsplit1 (s : String) : Option (String × String) :=
  match pySplit s "/" with
  | [] => none
  | [_] => none
  | p :: q :: rest =>
    some (pyJoin "/" ((p :: q :: rest).dropLast), (q :: rest).getLast (List.cons_ne_nil _ _))

/-- One hexadecimal digit, as accepted by Python `bytes.fromhex`. -/
def hexDigit (c : Char) : Option Nat :=
  if '0' ≤ c ∧ c ≤ '9' then some (c.toNat - 48)
  else if 'a' ≤ c ∧ c ≤ 'f' then some (c.toNat - 87)
  else if 'A' ≤ c ∧ c ≤ 'F' then some (c.toNat - 55)
  else none

/-- `bytes.fromhex` on a character list: pairs of hex digits, spaces allowed
between pairs, `none` on a stray character or an odd tail (Python raises
`ValueError` there). -/
def fromhexL : List Char → Option (List Nat)
  | [] => some []
  | ' ' :: rest => fromhexL rest
  | a :: b :: rest =>
    match hexDigit a, hexDigit b with
    | some x, some y => (fromhexL rest).map (fun t => (16 * x + y) :: t)
    | _, _ => none
  | _ => none

/-- Python `bytes.fromhex(s)`. -/
def fromhex (s : String) : Option (List Nat) := fromhexL s.data

/-! ## AES-128 (the cipher behind PyCryptodome's `AES.new(..., MODE_CBC)`) -/

/-- The AES S-box (FIPS-197 figure 7), used by the key schedule. -/
def sbox : List Nat := [
  99, 124, 119, 123, 242, 107, 111, 197, 48, 1, 103, 43, 254, 215, 171, 118,
  202, 130, 201, 125, 250, 89, 71, 240, 173, 212, 162, 175, 156, 164, 114, 192,
  183, 253, 147, 38, 54, 63, 247, 204, 52, 165, 229, 241, 113, 216, 49, 21,
  4, 199, 35, 195, 24, 150, 5, 154, 7, 18, 128, 226, 235, 39, 178, 117,
  9, 131, 44, 26, 27, 110, 90, 160, 82, 59, 214, 179, 41, 227, 47, 132,
  83, 209, 0, 237, 32, 252, 177, 91, 106, 203, 190, 57, 74, 76, 88, 207,
  208, 239, 170, 251, 67, 77, 51, 133, 69, 249, 2, 127, 80, 60, 159, 168,
  81, 163, 64, 143, 146, 157, 56, 245, 188, 182, 218, 33, 16, 255, 243, 210,
  205, 12, 19, 236, 95, 151, 68, 23, 196, 167, 126, 61, 100, 93, 25, 115,
  96, 129, 79, 220, 34, 42, 144, 136, 70, 238, 184, 20, 222, 94, 11, 219,
  224, 50, 58, 10, 73, 6, 36, 92, 194, 211, 172, 98, 145, 149, 228, 121,
  231, 200, 55, 109, 141, 213, 78, 169, 108, 86, 244, 234, 101, 122, 174, 8,
  186, 120, 37, 46, 28, 166, 180, 198, 232, 221, 116, 31, 75, 189, 139, 138,
  112, 62, 181, 102, 72, 3, 246, 14, 97, 53, 87, 185, 134, 193, 29, 158,
  225, 248, 152, 17, 105, 217, 142, 148, 155, 30, 135, 233, 206, 85, 40, 223,
  140, 161, 137, 13, 191, 230, 66, 104, 65, 153, 45, 15, 176, 84, 187, 22
]

/-- The inverse AES S-box (FIPS-197 figure 14). -/
def invSbox : List Nat := [
  82, 9, 106, 213, 48, 54, 165, 56, 191, 64, 163, 158, 129, 243, 215, 251,
  124, 227, 57, 130, 155, 47, 255, 135, 52, 142, 67, 68, 196, 222, 233, 203,
  84, 123, 148, 50, 166, 194, 35, 61, 238, 76, 149, 11, 66, 250, 195, 78,
  8, 46, 161, 102, 40, 217, 36, 178, 118, 91, 162, 73, 109, 139, 209, 37,
  114, 248, 246, 100, 134, 104, 152, 22, 212, 164, 92, 204, 93, 101, 182, 146,
  108, 112, 72, 80, 253, 237, 185, 218, 94, 21, 70, 87, 167, 141, 157, 132,
  144, 216, 171, 0, 140, 188, 211, 10, 247, 228, 88, 5, 184, 179, 69, 6,
  208, 44, 30, 143, 202, 63, 15, 2, 193, 175, 189, 3, 1, 19, 138, 107,
  58, 145, 17, 65, 79, 103, 220, 234, 151, 242, 207, 206, 240, 180, 230, 115,
  150, 172, 116, 34, 231, 173, 53, 133, 226, 249, 55, 232, 28, 117, 223, 110,
  71, 241, 26, 113, 29, 41, 197, 137, 111, 183, 98, 14, 170, 24, 190, 27,
  252, 86, 62, 75, 198, 210, 121, 32, 154, 219, 192, 254, 120, 205, 90, 244,
  31, 221, 168, 51, 136, 7, 199, 49, 177, 18, 16, 89, 39, 128, 236, 95,
  96, 81, 127, 169, 25, 181, 74, 13, 45, 229, 122, 159, 147, 201, 156, 239,
  160, 224, 59, 77, 174, 42, 245, 176, 200, 235, 187, 60, 131, 83, 153, 97,
  23, 43, 4, 126, 186, 119, 214, 38, 225, 105, 20, 99, 85, 33, 12, 125
]

/-- Table lookup (out-of-range indices never occur on byte inputs). -/
def tbl (t : List Nat) (i : Nat) : Nat := (t.get? i).getD 0

/-- Byte-wise xor of two equal-length byte strings. -/
def xorB (xs ys : List Nat) : List Nat := List.zipWith (fun a b => a ^^^ b) xs ys

/-- Multiplication by `x` in GF(2^8) modulo `x^8 + x^4 + x^3 + x + 1`. -/
def xtime (b : Nat) : Nat := if b < 128 then 2 * b else (2 * b - 256) ^^^ 27

/-- GF(2^8) product, 8 shift-and-add steps. -/
def gmulAux : Nat → Nat → Nat → Nat → Nat
  | 0, _, _, acc => acc
  | f+1, a, b, acc =>
    gmulAux f (xtime a) (b / 2) (if b % 2 = 1 then acc ^^^ a else acc)

/-- GF(2^8) multiplication of two bytes. -/
def gmul (a b : Nat) : Nat := gmulAux 8 a b 0

/-- InvMixColumns on the flat, column-major 16-byte state (each group of 4
consecutive bytes is one column). -/
def invMixCol : List Nat → List Nat
  | a0 :: a1 :: a2 :: a3 :: rest =>
    (gmul a0 14 ^^^ gmul a1 11 ^^^ gmul a2 13 ^^^ gmul a3 9) ::
    (gmul a0 9 ^^^ gmul a1 14 ^^^ gmul a2 11 ^^^ gmul a3 13) ::
    (gmul a0 13 ^^^ gmul a1 9 ^^^ gmul a2 14 ^^^ gmul a3 11) ::
    (gmul a0 11 ^^^ gmul a1 13 ^^^ gmul a2 9 ^^^ gmul a3 14) :: invMixCol rest
  | l => l

/-- Index permutation realising InvShiftRows on the flat column-major
state: output byte `r + 4*c` comes from input byte `r + 4*((c - r) mod 4)`. -/
def invShiftRowsIdx : List Nat := [0, 13, 10, 7, 4, 1, 14, 11, 8, 5, 2, 15, 12, 9, 6, 3]

/-- Permute a 16-byte state by a list of source indices. -/
def applyPerm (xs idx : List Nat) : List Nat := idx.map (fun i => tbl xs i)

/-- InvShiftRows. -/
def invShiftRows (st : List Nat) : List Nat := applyPerm st invShiftRowsIdx

/-- InvSubBytes. -/
def invSubBytes (st : List Nat) : List Nat := st.map (tbl invSbox)

/-- SubWord of the key schedule. -/
def subWord (w : List Nat) : List Nat := w.map (tbl sbox)

/-- RotWord of the key schedule. -/
def rotWord : List Nat → List Nat
  | [a, b, c, d] => [b, c, d, a]
  | l => l

/-- The AES round constants. -/
def rconL : List Nat := [1, 2, 4, 8, 16, 32, 64, 128, 27, 54]

/-- The next word `w[i]` of the AES-128 key schedule given `w[0..i-1]`. -/
def nextWord (ws : List (List Nat)) : List Nat :=
  let i := ws.length
  let wim1 := (ws.get? (i - 1)).getD []
  let wim4 := (ws.get? (i - 4)).getD []
  if i % 4 = 0 then
    xorB wim4 (xorB (subWord (rotWord wim1)) [tbl rconL (i / 4 - 1), 0, 0, 0])
  else
    xorB wim4 wim1

/-- Extend the key schedule by `f` words. -/
def keyExpAux : Nat → List (List Nat) → List (List Nat)
  | 0, ws => ws
  | f+1, ws => keyExpAux f (ws ++ [nextWord ws])

/-- AES-128 key expansion: the 44 words `w[0..43]` of FIPS-197 §5.2. -/
def keyExpansion (key : List Nat) : List (List Nat) :=
  keyExpAux 40 [key.take 4, (key.drop 4).take 4, (key.drop 8).take 4, (key.drop 12).take 4]

/-- The flat 16-byte round key for round `r`. -/
def roundKey (ws : List (List Nat)) (r : Nat) : List Nat :=
  ((ws.get? (4 * r)).getD []) ++ ((ws.get? (4 * r + 1)).getD []) ++
  ((ws.get? (4 * r + 2)).getD []) ++ ((ws.get? (4 * r + 3)).getD [])

/-- One full inverse round (rounds `9` down to `1` of InvCipher). -/
def invRound (ws : List (List Nat)) (r : Nat) (st : List Nat) : List Nat :=
  invMixCol (xorB (invSubBytes (invShiftRows st)) (roundKey ws r))

/-- Apply inverse rounds `r, r-1, ..., 1`. -/
def invRoundsAux (ws : List (List Nat)) : Nat → List Nat → List Nat
  | 0, st => st
  | r+1, st => invRoundsAux ws r (invRound ws (r + 1) st)

/-- AES-128 decryption of one 16-byte block (FIPS-197 InvCipher, §5.3). -/
def aesDecBlock (key ct : List Nat) : List Nat :=
  let ws := keyExpansion key
  let st := invRoundsAux ws 9 (xorB ct (roundKey ws 10))
  xorB (invSubBytes (invShiftRows st)) (roundKey ws 0)

/-- Split a byte string into its consecutive 16-byte blocks. -/
def chunksAux : Nat → List Nat → List (List Nat)
  | _, [] => []
  | 0, l => [l]
  | f+1, a :: rest => ((a :: rest).take 16) :: chunksAux f ((a :: rest).drop 16)

/-- The 16-byte blocks of a byte string. -/
def chunks16 (l : List Nat) : List (List Nat) := chunksAux l.length l

/-- CBC decryption of a block list: each plaintext block is the block
decryption xored with the previous ciphertext block (initially the chaining
value); returns the plaintext and the new chaining value — PyCryptodome's
cipher objects keep exactly this chaining value between `decrypt` calls. -/
def cbcDecAux (key : List Nat) : List (List Nat) → List Nat → List Nat × List Nat
  | [], ch => ([], ch)
  | b :: bs, ch =>
    let p := xorB (aesDecBlock key b) ch
    let (rest, ch2) := cbcDecAux key bs b
    (p ++ rest, ch2)

set_option maxRecDepth 100000

theorem aesDecBlock_fips197 :
    aesDecBlock
      [0, 1, 2, 3, 4, 5, 6, 7, 8, 9, 10, 11, 12, 13, 14, 15]
      [105, 196, 224, 216, 106, 123, 4, 48, 216, 205, 183, 128, 112, 180, 197, 90]
      = [0, 17, 34, 51, 68, 85, 102, 119, 136, 153, 170, 187, 204, 221, 238, 255] := by
  decide

/-! ## Decoders (`DefaultDecoder`, `AESDecoder`) -/

/-- A value in the parsed `#EXT-X-KEY` attribute dict.  `parse_ext_x_key`
produces strings; `HLS.parse` later overwrites the `IV` entry with the
decoded bytes, so the dict is heterogeneous in Python. -/
inductive AttrVal where
  | s (v : String) : AttrVal
  | b (v : List Nat) : AttrVal
deriving DecidableEq

/-- The decoder value: `DefaultDecoder` (identity) or an `AESDecoder`,
which after construction holds the fixed key together with the cipher
object's current CBC chaining block (initially the IV passed to
`AES.new`). -/
inductive Decoder where
  | dflt : Decoder
  | aes (key chain : List Nat) : Decoder
deriving DecidableEq

/-- `AESDecoder.__init__`, i.e. `AES.new(key=key, IV=iv, mode=MODE_CBC)`.
The key slot is `none` when the Python value would be `None` (no key was
fetched) and the IV is whatever value sits in the parsed attribute dict.
PyCryptodome raises `TypeError` on non-bytes arguments and `ValueError` on
wrong lengths; it would also accept 24- and 32-byte keys (AES-192/256),
which this AES-128 repository never produces, so only 16-byte keys are
given a cipher here. -/
def AESDecoder.new (key : Option (List Nat)) (iv : AttrVal) : Except String Decoder :=
  match key, iv with
  | some k, AttrVal.b ivb =>
    if k.length = 16 ∧ ivb.length = 16 then Except.ok (Decoder.aes k ivb)
    else Except.error "ValueError"
  | _, _ => Except.error "TypeError"

/-- `decode(content)`.  The default decoder returns the input unchanged;
the AES decoder is `self.aes.decrypt(content)`: CBC decryption continuing
from the stored chaining block, which it updates (PyCryptodome cipher
objects are stateful across calls).  A length that is not a multiple of 16
raises `ValueError` in PyCryptodome. -/
def Decoder.decode : Decoder → List Nat → Except String (List Nat × Decoder)
  | Decoder.dflt, content => Except.ok (content, Decoder.dflt)
  | Decoder.aes key chain, content =>
    if content.length % 16 = 0 then
      let r := cbcDecAux key (chunks16 content) chain
      Except.ok (r.1, Decoder.aes key r.2)
    else Except.error "ValueError"

/-! ## `Cache` -/

/-- The cache directory's file system, keyed by file path. -/
abbrev Store := String → Option (List Nat)

/-- Outcome of one `Cache.get` call.  Unlike the other operations this one
must expose the file system even when the call raises, because the `with
open(file_path, "wb")` block has already created (or truncated) the file:
bytes written before the getter's exception persist on disk. -/
structure GetRes where
  store : Store
  fetched : Bool
  err : Option String

/-- `Cache.get(url)`.  The injected getter `get1` either returns the full
response body (`Except.ok`) or raises after having written a (possibly
empty) prefix of it to the open file (`Except.error` carrying those
partial bytes).  The cache key is `os.path.join(directory, url_suffix)`
with `url_suffix` the part of the URL after its last `/`; a URL without
`/` makes the tuple unpacking raise `ValueError` before any file is
touched. -/
def Cache.get (get1 : String → Except (List Nat) (List Nat)) (directory : String)
    (store : Store) (url : String) : GetRes :=
  match rsplit1 url with
  | none => ⟨store, false, some "ValueError"⟩
  | some pr =>
    let fp := directory ++ "/" ++ pr.2
    match store fp with
    | some _ => ⟨store, false, none⟩
    | none =>
      match get1 url with
      | Except.ok b => ⟨fun k => if k = fp then some b else store k, true, none⟩
      | Except.error p => ⟨fun k => if k = fp then some p else store k, true, some "FetchError"⟩

/-- The loop body of `Cache.merge`, threading the (stateful) decoder and
returning the bytes written to the output file.  Reading a missing cache
file raises `FileNotFoundError`. -/
def mergeAux (directory : String) (store : Store) (decoder : Decoder) :
    List String → Except String (List Nat)
  | [] => Except.ok []
  | u :: us =>
    match rsplit1 u with
    | none => Except.error "ValueError"
    | some pr =>
      match store (directory ++ "/" ++ pr.2) with
      | none => Except.error "FileNotFoundError"
      | some raw =>
        match decoder.decode raw with
        | Except.error e => Except.error e
        | Except.ok (out, d2) =>
          match mergeAux directory store d2 us with
          | Except.error e => Except.error e
          | Except.ok rest => Except.ok (out ++ rest)

/-- `Cache.merge(url_list, file_path, decoder)`: for each URL in playlist
order, read the cached raw bytes and append `decoder.decode` of them to
the output file; the result is that file's final content. -/
def Cache.merge (directory : String) (store : Store) (url_list : List String)
    (decoder : Decoder) : Except String (List Nat) :=
  mergeAux directory store decoder url_list

/-- Running the download tasks of `MTDownloader.download` in a given
completion order `order` over a run in which every fetch succeeds with
`f u`: each task is one `Cache.get` call.  (Which interleaving the thread
pool chooses only determines `order`.) -/
def downloadAll (f : String → List Nat) (directory : String)
    (order : List String) (store : Store) : Store :=
  order.foldl (fun st u => (Cache.get (fun v => Except.ok (f v)) directory st u).store) store

/-- The byte string `decode(c1) ++ decode(c2) ++ ...` obtained by calling
one decoder on each content in turn (threading the decoder's state, which
for `AESDecoder` is the CBC chain). -/
def decodeChain (d : Decoder) : List (List Nat) → Except String (List Nat)
  | [] => Except.ok []
  | c :: cs =>
    match d.decode c with
    | Except.error e => Except.error e
    | Except.ok (out, d2) =>
      match decodeChain d2 cs with
      | Except.error e => Except.error e
      | Except.ok rest => Except.ok (out ++ rest)

/-! ## `HLS` (playlist parsing) -/

/-- Python dict insertion `d[k] = v`: overwrite in place, else append. -/
def dictIns {α : Type} : List (String × α) → String → α → List (String × α)
  | [], k, v => [(k, v)]
  | (k0, v0) :: rest, k, v =>
    if k0 = k then (k0, v) :: rest else (k0, v0) :: dictIns rest k v

/-- Python dict lookup `d.get(k)` (keys are unique by construction). -/
def dictGet {α : Type} : List (String × α) → String → Option α
  | [], _ => none
  | (k0, v0) :: rest, k => if k0 = k then some v0 else dictGet rest k

/-- The `BS` helper: the injected transport (`Get`) exposed as a byte view
and a text view (`get_str` is the UTF-8 decoding of `get_bytes`; the link
between the two is irrelevant to the claims, so both are kept abstract). -/
structure BS where
  get_bytes : String → Except String (List Nat)
  get_str : String → Except String String

/-- The fields of a parsed `HLS` object. -/
structure HLSR where
  ext_x_key : Option (List (String × AttrVal))
  ext_x_key_enc_key : Option (List Nat)
  m3u8_url_list : List String
  ts_url_list : List String
deriving DecidableEq

/-- The attribute loop of `HLS.parse_ext_x_key`: each comma-chunk is
unpacked as `k, v = chunk.split("=")` — which raises `ValueError` unless
the chunk contains exactly one `=` — and inserted into the dict. -/
def keyAttrsLoop : List (String × String) → List String → Except String (List (String × String))
  | acc, [] => Except.ok acc
  | acc, chunk :: rest =>
    match pySplit chunk "=" with
    | [k, v] => keyAttrsLoop (dictIns acc k v) rest
    | _ => Except.error "ValueError"

/-- `HLS.parse_ext_x_key(line)` (continued): the whole method. -/
def parse_ext_x_key (line : String) : Except String (List (String × String)) :=
  match (pySplit line "#EXT-X-KEY:").get? 1 with
  | none => Except.error "IndexError"
  | some rest => keyAttrsLoop [] (pySplit rest ",")

/-- The body of the first loop of `HLS.parse`, for one line of the root
playlist.  Non-comment lines ending in `m3u8` / `ts` are resolved against
the root directory and collected; a `#EXT-X-KEY:` line is parsed, the key
bytes are fetched from the quote-stripped `URI` (if present), and the `IV`
entry (if present) is replaced by `bytes.fromhex` of its value minus the
first two characters (`ivStep` is that last statement, reading and
updating the dict in place). -/
def ivStep (d0 : List (String × AttrVal)) (st2 : HLSR) : Except String HLSR :=
  match dictGet d0 "IV" with
  | some (AttrVal.s w) =>
    match fromhex (pyDrop w 2) with
    | some ivb => Except.ok { st2 with ext_x_key := some (dictIns d0 "IV" (AttrVal.b ivb)) }
    | none => Except.error "ValueError"
  | _ => Except.ok st2

/-- The body of the first loop of `HLS.parse` (continued): one line. -/
def parseLine (uj : String → String → String) (bs : BS) (urlBase : String)
    (st : HLSR) (line : String) : Except String HLSR :=
  if pyStartswith line "#" = false then
    let st1 :=
      if pyEndswith line "m3u8" then
        { st with m3u8_url_list := st.m3u8_url_list ++ [uj urlBase line] }
      else st
    let st2 :=
      if pyEndswith line "ts" then
        { st1 with ts_url_list := st1.ts_url_list ++ [uj urlBase line] }
      else st1
    Except.ok st2
  else if pyStartswith line "#EXT-X-KEY:" then
    match parse_ext_x_key line with
    | Except.error e => Except.error e
    | Except.ok attrs =>
      let d0 : List (String × AttrVal) := attrs.map (fun kv => (kv.1, AttrVal.s kv.2))
      let st1 := { st with ext_x_key := some d0 }
      let fetched : Except String HLSR :=
        match dictGet d0 "URI" with
        | some (AttrVal.s u) =>
          match bs.get_bytes (uj urlBase (pyReplace u "\"" "")) with
          | Except.ok kb => Except.ok { st1 with ext_x_key_enc_key := some kb }
          | Except.error e => Except.error e
        | _ => Except.ok st1
      match fetched with
      | Except.error e => Except.error e
      | Except.ok st2 => ivStep d0 st2
  else Except.ok st

/-- The body of the second loop of `HLS.parse`, for one variant playlist
URL: fetch its text and append every non-comment line ending in `ts`,
resolved against the ROOT playlist's directory (`urlBase` is the root's
prefix, not the variant's). -/
def variantStep (uj : String → String → String) (bs : BS) (urlBase : String)
    (st : HLSR) (v : String) : Except String HLSR :=
  match bs.get_str v with
  | Except.error e => Except.error e
  | Except.ok vt =>
    Except.ok ((pySplit vt "\n").foldl
      (fun st2 l =>
        if pyStartswith l "#" = false ∧ pyEndswith l "ts" = true then
          { st2 with ts_url_list := st2.ts_url_list ++ [uj urlBase l] }
        else st2)
      st)

/-- The first `for` loop of `HLS.parse`, over the root playlist's lines. -/
def parseLines (uj : String → String → String) (bs : BS) (urlBase : String) :
    HLSR → List String → Except String HLSR
  | st, [] => Except.ok st
  | st, l :: ls =>
    match parseLine uj bs urlBase st l with
    | Except.error e => Except.error e
    | Except.ok st1 => parseLines uj bs urlBase st1 ls

/-- The second `for` loop of `HLS.parse`, over the collected variant
playlist URLs. -/
def variantLoop (uj : String → String → String) (bs : BS) (urlBase : String) :
    HLSR → List String → Except String HLSR
  | st, [] => Except.ok st
  | st, v :: vs =>
    match variantStep uj bs urlBase st v with
    | Except.error e => Except.error e
    | Except.ok st1 => variantLoop uj bs urlBase st1 vs

/-- Fetching the text of each variant playlist in order (`bs.get_str`
inside the second loop), used to state theorems about `variantLoop`. -/
def mapGetStr (bs : BS) : List String → Except String (List String)
  | [] => Except.ok []
  | v :: vs =>
    match bs.get_str v with
    | Except.error e => Except.error e
    | Except.ok t =>
      match mapGetStr bs vs with
      | Except.error e => Except.error e
      | Except.ok ts => Except.ok (t :: ts)

/-- `HLS.parse(url, get)`: split the root URL at its last `/` to get the
directory prefix, fetch the root playlist text, run the line loop, then
fetch each collected variant playlist in order and extend the segment
list. -/
def HLS.parse (uj : String → String → String) (bs : BS) (url : String) :
    Except String HLSR :=
  match rsplit1 url with
  | none => Except.error "ValueError"
  | some pr =>
    let urlBase := pr.1 ++ "/"
    match bs.get_str url with
    | Except.error e => Except.error e
    | Except.ok text =>
      match parseLines uj bs urlBase (HLSR.mk none none [] []) (pySplit text "\n") with
      | Except.error e => Except.error e
      | Except.ok st1 => variantLoop uj bs urlBase st1 st1.m3u8_url_list

/-- `HLS.get_decoder()`: default decoder unless an encryption dict with
`METHOD` equal (verbatim) to `"AES-128"` was parsed, in which case an
`AESDecoder` is built from the fetched key bytes and the dict's `IV`
entry.  Evaluating `self.ext_x_key[IV]` raises `KeyError` when `IV` is
absent; passing a `None` key or a string `IV` to `AES.new` raises inside
`AESDecoder.new`. -/
def HLSR.get_decoder (h : HLSR) : Except String Decoder :=
  match h.ext_x_key with
  | none => Except.ok Decoder.dflt
  | some d =>
    match dictGet d "METHOD" with
    | none => Except.ok Decoder.dflt
    | some (AttrVal.b _) => Except.ok Decoder.dflt
    | some (AttrVal.s m) =>
      if m = "AES-128" then
        match dictGet d "IV" with
        | none => Except.error "KeyError"
        | some iv0 => AESDecoder.new h.ext_x_key_enc_key iv0
      else Except.ok Decoder.dflt

/-! ## `MTDownloader.download` (thread-pool trace model)

`download` submits ALL `cache.get` tasks to a `ThreadPoolExecutor`
(`max_workers=4`) before entering its wait loop, then repeatedly calls
`wait(futures, return_when=FIRST_COMPLETED)`; for each batch of completed
futures it raises the first stored exception it finds (before touching the
progress bar), otherwise it calls `bar.update(len(done))`.  Leaving the
`with` block — including via that `raise` — calls `executor.shutdown
(wait=True)`, which lets every already-submitted task start and run to
completion (queued futures are not cancelled).

An execution is a trace of events: a worker starts the next queued task
(tasks start in submission = playlist order, with at most `w` running),
a running task finishes (any order, success or failure), or the driver
observes the set of finished-but-unobserved tasks (only while it has not
raised).  `DlState.updates` records the successive `bar.update` arguments,
`raised` that the driver re-raised a task failure as its terminal
result. -/

/-- One event of a `download` execution. -/
inductive DlEv where
  | start (i : Nat) : DlEv
  | finish (i : Nat) (ok : Bool) : DlEv
  | observe : DlEv
deriving DecidableEq

/-- Scheduler state: next task index to start, indices currently running,
finished-but-unobserved results in finish order, whether the driver has
raised, and the `bar.update` arguments so far. -/
structure DlState where
  nextStart : Nat
  running : List Nat
  doneQ : List (Nat × Bool)
  raised : Bool
  updates : List Nat
deriving DecidableEq

/-- The initial state of a run over `n` tasks. -/
def DlState.init : DlState := ⟨0, [], [], false, []⟩

/-- One step of the transition system for `n` tasks on `w` workers;
`none` when the event is not enabled. -/
def dlStep (n w : Nat) (s : DlState) : DlEv → Option DlState
  | DlEv.start i =>
    if i = s.nextStart ∧ i < n ∧ s.running.length < w then
      some { s with nextStart := s.nextStart + 1, running := s.running ++ [i] }
    else none
  | DlEv.finish i ok =>
    if i ∈ s.running then
      some { s with running := s.running.erase i, doneQ := s.doneQ ++ [(i, ok)] }
    else none
  | DlEv.observe =>
    if s.raised = false ∧ s.doneQ ≠ [] then
      if s.doneQ.any (fun p => !p.2) then
        some { s with doneQ := [], raised := true }
      else
        some { s with doneQ := [], updates := s.updates ++ [s.doneQ.length] }
    else none

/-- Run a trace from a state. -/
def dlRun (n w : Nat) (s : DlState) : List DlEv → Option DlState
  | [] => some s
  | e :: es =>
    match dlStep n w s e with
    | some s2 => dlRun n w s2 es
    | none => none

/-- A complete run: every task was submitted and started (`shutdown`
drains the queue even after a raise), every started task finished, and —
unless the driver raised — the wait loop ran until every completion was
observed. -/
def dlFinal (n : Nat) (s : DlState) : Prop :=
  s.nextStart = n ∧ s.running = [] ∧ (s.raised = false → s.doneQ = [])

instance (n : Nat) (s : DlState) : Decidable (dlFinal n s) := by
  unfold dlFinal; infer_instance

/-- Executable check that `evs` is a complete execution of `download`
over `n` tasks with `w` workers. -/
def validTrace (n w : Nat) (evs : List DlEv) : Bool :=
  match dlRun n w DlState.init evs with
  | some s => decide (dlFinal n s)
  | none => false

/-- The driver's state after the first `k` events. -/
def stateAt (n w : Nat) (evs : List DlEv) (k : Nat) : Option DlState :=
  dlRun n w DlState.init (evs.take k)

/-- Number of task completions in a trace. -/
def countFinish (evs : List DlEv) : Nat :=
  evs.countP (fun e => match e with | DlEv.finish _ _ => true | _ => false)

/-! ## Helpers for evaluating a decoder twice on the same input -/

/-- The output of the FIRST `decode(c)` call on a fresh decoder. -/
def decodeFstOut (d : Decoder) (c : List Nat) : Option (List Nat) :=
  match d.decode c with
  | Except.ok (p, _) => some p
  | Except.error _ => none

/-- The output of a SECOND `decode(c)` call on the decoder object left
behind by a first `decode(c)` call. -/
def decodeSndOut (d : Decoder) (c : List Nat) : Option (List Nat) :=
  match d.decode c with
  | Except.ok (_, d2) =>
    match d2.decode c with
    | Except.ok (p2, _) => some p2
    | Except.error _ => none
  | Except.error _ => none

deriving instance DecidableEq for Except

/-! ## Claim C2 (cache writes are not all-or-nothing) -/

/-- Claim C2 says a failed fetch leaves no cache entry that a later call
treats as a valid hit.  Evaluating the code at a failing input shows the
opposite: with an empty cache, a getter that raises after writing the
single byte `7` leaves `d/x.ts` containing `[7]`, and a second
`Cache.get` on the same URL is a cache hit — it performs no fetch and
raises no error. -/
theorem C2_partial_write_becomes_cache_hit :
    (Cache.get (fun _ => Except.error [7]) "d" (fun _ => none) "h/x.ts").err
        = some "FetchError"
    ∧ (Cache.get (fun _ => Except.error [7]) "d" (fun _ => none) "h/x.ts").store "d/x.ts"
        = some [7]
    ∧ (Cache.get (fun _ => Except.error [7]) "d"
        (Cache.get (fun _ => Except.error [7]) "d" (fun _ => none) "h/x.ts").store
        "h/x.ts").fetched = false
    ∧ (Cache.get (fun _ => Except.error [7]) "d"
        (Cache.get (fun _ => Except.error [7]) "d" (fun _ => none) "h/x.ts").store
        "h/x.ts").err = none := by
  decide

/-! ## Claim C3 (the AES decoder is not pure) -/

/-- Claim C3 says every decoder's `decode` returns the same bytes when
called twice on the same input.  Evaluating the code at a failing input
shows the opposite for `AESDecoder`: with a 16-byte zero key, a zero IV
and the single ciphertext block `01 00 ... 00`, the first and second
`decode` of that same block both succeed but return different plaintexts,
because the PyCryptodome CBC object chains — the second call xors with
the previous ciphertext block instead of the IV. -/
theorem C3_aes_decode_stateful :
    (decodeFstOut (Decoder.aes (List.replicate 16 0) (List.replicate 16 0))
        (1 :: List.replicate 15 0)).isSome = true
    ∧ (decodeSndOut (Decoder.aes (List.replicate 16 0) (List.replicate 16 0))
        (1 :: List.replicate 15 0)).isSome = true
    ∧ decodeFstOut (Decoder.aes (List.replicate 16 0) (List.replicate 16 0))
        (1 :: List.replicate 15 0)
      ≠ decodeSndOut (Decoder.aes (List.replicate 16 0) (List.replicate 16 0))
        (1 :: List.replicate 15 0) := by
  decide

/-! ## Claim C1 (merge output vs. playlist-order concatenation) -/

/-- Claim C1 as stated is false on the code: two distinct segment URLs
with the same final path component alias one cache entry, so after a
fully successful run over `["a/x.ts", "b/x.ts"]` (fetch returning `[0]`
for the first and `[1]` for the second) the merged output is
`[0, 0]`, not the claimed concatenation `decode(s1) ++ decode(s2) =
[0, 1]`. -/
theorem C1_counterexample :
    Cache.merge "d"
        (downloadAll (fun u => if u = "a/x.ts" then [0] else [1]) "d"
          ["a/x.ts", "b/x.ts"] (fun _ => none))
        ["a/x.ts", "b/x.ts"] Decoder.dflt
      ≠ decodeChain Decoder.dflt
          (["a/x.ts", "b/x.ts"].map (fun u => if u = "a/x.ts" then [0] else [1])) := by
  decide

/-! ## Claim C4 (line classification suffixes) -/

/-- Claim C4 says a non-comment line is classified as a segment iff it
ends with `".ts"` and as a variant iff it ends with `".m3u8"`.  The code
tests `endswith("ts")` / `endswith("m3u8")` without the dot: parsing a
playlist whose lines are `segments` and `xm3u8` classifies both, although
neither ends with the dotted suffix. -/
theorem C4_counterexample :
    HLS.parse (fun b r => b ++ r)
        ⟨fun _ => Except.ok [],
         fun u => if u = "h/p.m3u8" then Except.ok "segments\nxm3u8" else Except.ok ""⟩
        "h/p.m3u8"
      = Except.ok ⟨none, none, ["h/xm3u8"], ["h/segments"]⟩
    ∧ pyEndswith "segments" ".ts" = false ∧ pyEndswith "xm3u8" ".m3u8" = false := by
  decide

/-! ## Claim C9 (quote stripping in `#EXT-X-KEY` attributes) -/

/-- Claim C9 says quotes are stripped from every quoted attribute value
before use, including for the `METHOD` comparison.  Parsing a playlist
whose key line carries `METHOD="AES-128"` (quoted) shows otherwise: the
dict stores the value with its quotes, and `get_decoder` compares that
raw value against `"AES-128"`, fails, and yields the default decoder even
though the method is AES-128. -/
theorem C9_counterexample :
    HLS.parse (fun b r => b ++ r)
        ⟨fun u => if u = "h/k.bin" then Except.ok (List.replicate 16 1) else Except.ok [],
         fun u =>
           if u = "h/p.m3u8" then
             Except.ok "#EXT-X-KEY:METHOD=\"AES-128\",URI=\"k.bin\",IV=0x000102030405060708090a0b0c0d0e0f"
           else Except.ok ""⟩
        "h/p.m3u8"
      = Except.ok
          ⟨some [("METHOD", AttrVal.s "\"AES-128\""), ("URI", AttrVal.s "\"k.bin\""),
                 ("IV", AttrVal.b [0, 1, 2, 3, 4, 5, 6, 7, 8, 9, 10, 11, 12, 13, 14, 15])],
           some (List.replicate 16 1), [], []⟩
    ∧ HLSR.get_decoder
        ⟨some [("METHOD", AttrVal.s "\"AES-128\""), ("URI", AttrVal.s "\"k.bin\""),
               ("IV", AttrVal.b [0, 1, 2, 3, 4, 5, 6, 7, 8, 9, 10, 11, 12, 13, 14, 15])],
         some (List.replicate 16 1), [], []⟩
      = Except.ok Decoder.dflt := by
  decide

/-! ## Claim C10 (when `#EXT-X-KEY` parsing raises) -/

/-- Claim C10 says a quoted URI value containing a comma makes parsing
raise.  The line `#EXT-X-KEY:METHOD=AES-128,URI="a,b=c"` is a
counterexample: the comma splits the quoted URI into chunks `URI="a` and
`b=c"`, each of which still contains exactly one `=`, so `parse_ext_x_key`
succeeds (with garbled attributes) and the whole `HLS.parse` returns a
playlist instead of raising. -/
theorem C10_counterexample :
    parse_ext_x_key "#EXT-X-KEY:METHOD=AES-128,URI=\"a,b=c\""
      = Except.ok [("METHOD", "AES-128"), ("URI", "\"a"), ("b", "c\"")]
    ∧ HLS.parse (fun b r => b ++ r)
        ⟨fun u => if u = "h/a" then Except.ok [1] else Except.ok [],
         fun u =>
           if u = "h/p" then Except.ok "#EXT-X-KEY:METHOD=AES-128,URI=\"a,b=c\""
           else Except.ok ""⟩
        "h/p"
      = Except.ok
          ⟨some [("METHOD", AttrVal.s "AES-128"), ("URI", AttrVal.s "\"a"),
                 ("b", AttrVal.s "c\"")],
           some [1], [], []⟩ := by
  decide

/-! ## Claim C5 (tasks started after the first observed failure) -/

/-- Claim C5 says that once the pipeline observes the first task failure,
no new `ensure` tasks are started.  This is false: all tasks are submitted
to the pool before the wait loop, and `shutdown` still runs queued tasks
after the driver raises.  In the valid 5-task / 4-worker trace below,
task 0's failure is observed at step 6 (the state is `raised`), and the
queued task 4 starts right afterwards. -/
theorem C5_counterexample :
    ¬ (∀ (n w : Nat) (evs : List DlEv) (k j i : Nat),
        validTrace n w evs = true →
        (stateAt n w evs k).map DlState.raised = some true →
        k ≤ j →
        evs.get? j ≠ some (DlEv.start i)) := by
  intro h
  exact
    h 5 4
      [DlEv.start 0, DlEv.start 1, DlEv.start 2, DlEv.start 3,
       DlEv.finish 0 false, DlEv.observe, DlEv.start 4,
       DlEv.finish 1 true, DlEv.finish 2 true, DlEv.finish 3 true, DlEv.finish 4 true]
      6 6 4 (by decide) (by decide) (by decide) (by decide)

/-! ## Claim C6 (one increment of 1 per completion) -/

/-- Claim C6 says the progress sink receives exactly one increment of `1`
per task completion.  The code instead calls `bar.update(len(done))` once
per observed batch: in the valid 2-task trace below both completions are
observed in one batch and the sink receives the single increment `[2]`,
not `[1, 1]`. -/
theorem C6_counterexample :
    ¬ (∀ (n w : Nat) (evs : List DlEv) (s : DlState),
        validTrace n w evs = true →
        dlRun n w DlState.init evs = some s →
        s.updates = List.replicate (countFinish evs) 1) := by
  intro h
  have h2 :=
    h 2 4 [DlEv.start 0, DlEv.start 1, DlEv.finish 0 true, DlEv.finish 1 true, DlEv.observe]
      ⟨2, [], [], false, [2]⟩ (by decide) (by decide)
  exact absurd h2 (by decide)

/-! ## Claim C8 (`ensure` idempotence) -/

/-- Claim C8: for a URL (a string with a `/`) whose cache entry does not
yet exist, calling `Cache.get` twice in sequence performs exactly one
fetch: the first call invokes the getter, the second finds the entry
present (whatever the first call's outcome wrote there) and returns
immediately — no fetch, no error, file system unchanged. -/
theorem C8_ensure_idempotent (g1 : String → Except (List Nat) (List Nat))
    (directory : String) (store : Store) (url a b : String)
    (h1 : rsplit1 url = some (a, b))
    (h2 : store (directory ++ "/" ++ b) = none) :
    (Cache.get g1 directory store url).fetched = true ∧
    (Cache.get g1 directory (Cache.get g1 directory store url).store url).fetched = false ∧
    (Cache.get g1 directory (Cache.get g1 directory store url).store url).err = none ∧
    ∀ k, (Cache.get g1 directory (Cache.get g1 directory store url).store url).store k
        = (Cache.get g1 directory store url).store k := by
  cases hg : g1 url with
  | ok bts => simp [Cache.get, h1, h2, hg]
  | error p => simp [Cache.get, h1, h2, hg]

/-- Witness: the theorem applied at a concrete getter, directory, empty
file system and URL. -/
theorem C8_ensure_idempotent_witness :
    rsplit1 "h/x.ts" = some ("h", "x.ts") ∧
    (fun _ => none : Store) ("d" ++ "/" ++ "x.ts") = none ∧
    ((Cache.get (fun _ => Except.ok [2]) "d" (fun _ => none) "h/x.ts").fetched = true ∧
     (Cache.get (fun _ => Except.ok [2]) "d"
        (Cache.get (fun _ => Except.ok [2]) "d" (fun _ => none) "h/x.ts").store "h/x.ts").fetched = false ∧
     (Cache.get (fun _ => Except.ok [2]) "d"
        (Cache.get (fun _ => Except.ok [2]) "d" (fun _ => none) "h/x.ts").store "h/x.ts").err = none ∧
     ∀ k, (Cache.get (fun _ => Except.ok [2]) "d"
            (Cache.get (fun _ => Except.ok [2]) "d" (fun _ => none) "h/x.ts").store "h/x.ts").store k
        = (Cache.get (fun _ => Except.ok [2]) "d" (fun _ => none) "h/x.ts").store k) :=
  ⟨by decide, rfl,
   C8_ensure_idempotent (fun _ => Except.ok [2]) "d" (fun _ => none) "h/x.ts" "h" "x.ts"
     (by decide) rfl⟩

/-! ## Claim C1 (amended): ordered merge under distinct cache keys -/

/-- `Cache.get` never overwrites an existing cache entry. -/
theorem cacheGet_preserves (g1 : String → Except (List Nat) (List Nat))
    (directory : String) (store : Store) (url k : String) (b : List Nat)
    (h : store k = some b) :
    (Cache.get g1 directory store url).store k = some b := by
  unfold Cache.get
  cases hr : rsplit1 url with
  | none => simpa using h
  | some pr =>
    cases hs : store (directory ++ "/" ++ pr.2) with
    | some v => simpa [hs] using h
    | none =>
      have hk : k ≠ directory ++ "/" ++ pr.2 := by
        intro he
        rw [he, hs] at h
        cases h
      cases hg : g1 url with
      | ok bts => simp [hs, hg, hk, h]
      | error p => simp [hs, hg, hk, h]

/-- A cache hit leaves the file system unchanged. -/
theorem cacheGet_hit (g1 : String → Except (List Nat) (List Nat))
    (directory : String) (store : Store) (url a b : String) (v : List Nat)
    (hr : rsplit1 url = some (a, b))
    (hs : store (directory ++ "/" ++ b) = some v) :
    (Cache.get g1 directory store url).store = store := by
  simp [Cache.get, hr, hs]

/-- A cache miss with a succeeding fetch writes exactly the fetched bytes
under the URL's key. -/
theorem cacheGet_miss_ok (f : String → List Nat)
    (directory : String) (store : Store) (url a b : String)
    (hr : rsplit1 url = some (a, b))
    (hs : store (directory ++ "/" ++ b) = none) :
    (Cache.get (fun v => Except.ok (f v)) directory store url).store
      = fun k => if k = directory ++ "/" ++ b then some (f url) else store k := by
  simp [Cache.get, hr, hs]

/-- Existing entries survive a whole download pass. -/
theorem downloadAll_preserves (f : String → List Nat) (directory : String) :
    ∀ (l : List String) (store : Store) (k : String) (b : List Nat),
      store k = some b → downloadAll f directory l store k = some b
  | [], _, _, _, h => h
  | u :: us, store, k, b, h =>
    downloadAll_preserves f directory us _ k b
      (cacheGet_preserves (fun v => Except.ok (f v)) directory store u k b h)

/-- Cancellation of a shared prefix of strings. -/
theorem strAppend_cancel {a b c : String} (h : a ++ b = a ++ c) : b = c := by
  have h2 : a.data ++ b.data = a.data ++ c.data := congrArg String.data h
  have h3 : b.data = c.data := List.append_cancel_left h2
  exact congrArg String.mk h3

/-- After a fully successful download pass over a list of URLs whose
final path components identify them uniquely, the cache holds each URL's
fetched bytes under its key — independently of the order of the pass. -/
theorem downloadAll_mem (f : String → List Nat) (directory : String) :
    ∀ (l : List String) (store : Store) (u a b : String),
      u ∈ l →
      rsplit1 u = some (a, b) →
      (∀ v ∈ l, (rsplit1 v).isSome) →
      (∀ v ∈ l, ∀ v2 ∈ l, (rsplit1 v).map Prod.snd = (rsplit1 v2).map Prod.snd → v = v2) →
      (store (directory ++ "/" ++ b) = none ∨ store (directory ++ "/" ++ b) = some (f u)) →
      downloadAll f directory l store (directory ++ "/" ++ b) = some (f u) := by
  intro l
  induction l with
  | nil =>
    intro store u a b hmem
    exact absurd hmem (List.not_mem_nil u)
  | cons hd tl ih =>
    intro store u a b hmem hru hall hinj hdisj
    have hhd : (rsplit1 hd).isSome := hall hd (List.mem_cons_self hd tl)
    obtain ⟨⟨ah, bh⟩, hrh⟩ := Option.isSome_iff_exists.mp hhd
    have hstep : downloadAll f directory (hd :: tl) store
        = downloadAll f directory tl (Cache.get (fun v => Except.ok (f v)) directory store hd).store := rfl
    rw [hstep]
    rcases List.mem_cons.mp hmem with heq | hmem2
    · -- u is the head: after this step its entry holds `f u`, and it survives.
      subst heq
      have hb : b = bh := by
        rw [hru] at hrh
        cases hrh
        rfl
      subst hb
      rcases hdisj with hnone | hsome
      · rw [cacheGet_miss_ok f directory store u ah b hrh hnone]
        exact downloadAll_preserves f directory tl _ _ _ (by simp)
      · rw [cacheGet_hit (fun v => Except.ok (f v)) directory store u ah b (f u) hrh hsome]
        exact downloadAll_preserves f directory tl _ _ _ hsome
    · -- u is in the tail: the head's step cannot damage u's entry.
      have hall2 : ∀ v ∈ tl, (rsplit1 v).isSome :=
        fun v hv => hall v (List.mem_cons_of_mem hd hv)
      have hinj2 : ∀ v ∈ tl, ∀ v2 ∈ tl,
          (rsplit1 v).map Prod.snd = (rsplit1 v2).map Prod.snd → v = v2 :=
        fun v hv v2 hv2 =>
          hinj v (List.mem_cons_of_mem hd hv) v2 (List.mem_cons_of_mem hd hv2)
      apply ih _ u a b hmem2 hru hall2 hinj2
      cases hs : store (directory ++ "/" ++ bh) with
      | some v =>
        rw [cacheGet_hit (fun v => Except.ok (f v)) directory store hd ah bh v hrh hs]
        exact hdisj
      | none =>
        rw [cacheGet_miss_ok f directory store hd ah bh hrh hs]
        by_cases hk : directory ++ "/" ++ b = directory ++ "/" ++ bh
        · have hbb : b = bh := strAppend_cancel hk
          have huhd : u = hd := by
            apply hinj u hmem hd (List.mem_cons_self hd tl)
            rw [hru, hrh]
            simp [hbb]
          right
          simp [hk, huhd]
        · simp only [hk, if_neg hk]
          exact hdisj

/-- When the cache holds each URL's bytes under its key, `Cache.merge`
produces exactly the playlist-order decode chain of those bytes. -/
theorem mergeAux_decodeChain (f : String → List Nat) (directory : String) (store : Store) :
    ∀ (urls : List String) (d : Decoder),
      (∀ u ∈ urls, ∃ a b, rsplit1 u = some (a, b) ∧
        store (directory ++ "/" ++ b) = some (f u)) →
      mergeAux directory store d urls = decodeChain d (urls.map f) := by
  intro urls
  induction urls with
  | nil => intro d _; rfl
  | cons u us ih =>
    intro d h
    obtain ⟨a, b, hr, hs⟩ := h u (List.mem_cons_self u us)
    have h2 : ∀ v ∈ us, ∃ a2 b2, rsplit1 v = some (a2, b2) ∧
        store (directory ++ "/" ++ b2) = some (f v) :=
      fun v hv => h v (List.mem_cons_of_mem u hv)
    simp only [mergeAux, hr, hs, List.map_cons, decodeChain]
    cases hd : (d.decode (f u)) with
    | error e => rfl
    | ok pr =>
      obtain ⟨out, d2⟩ := pr
      simp only [ih d2 h2]

/-- Claim C1 (amended): provided the segment URLs have pairwise-distinct
final path components (the cache keys segments by that component, so
colliding URLs alias one entry), a fully successful run that fetches the
segments in ANY order and then merges in playlist order produces exactly
`decode(s1) ++ decode(s2) ++ ... ++ decode(sn)` — the decoder applied to
each segment's fetched bytes in playlist order (threading the decoder's
state). -/
theorem C1_merge_eq_ordered_decode
    (f : String → List Nat) (directory : String) (urls order : List String) (d : Decoder)
    (hperm : order.Perm urls)
    (hall : ∀ u ∈ urls, (rsplit1 u).isSome)
    (hinj : ∀ u ∈ urls, ∀ v ∈ urls,
      (rsplit1 u).map Prod.snd = (rsplit1 v).map Prod.snd → u = v) :
    Cache.merge directory (downloadAll f directory order (fun _ => none)) urls d
      = decodeChain d (urls.map f) := by
  apply mergeAux_decodeChain
  intro u hu
  obtain ⟨⟨a, b⟩, hr⟩ := Option.isSome_iff_exists.mp (hall u hu)
  refine ⟨a, b, hr, ?_⟩
  have hmemo : u ∈ order := hperm.mem_iff.mpr hu
  have hallo : ∀ v ∈ order, (rsplit1 v).isSome :=
    fun v hv => hall v (hperm.mem_iff.mp hv)
  have hinjo : ∀ v ∈ order, ∀ v2 ∈ order,
      (rsplit1 v).map Prod.snd = (rsplit1 v2).map Prod.snd → v = v2 :=
    fun v hv v2 hv2 => hinj v (hperm.mem_iff.mp hv) v2 (hperm.mem_iff.mp hv2)
  exact downloadAll_mem f directory order (fun _ => none) u a b hmemo hr hallo hinjo
    (Or.inl rfl)

/-- Witness: two segments fetched in reversed order still merge to the
playlist-order concatenation. -/
theorem C1_merge_eq_ordered_decode_witness :
    (["h/b.ts", "h/a.ts"].Perm ["h/a.ts", "h/b.ts"]
      ∧ (∀ u ∈ ["h/a.ts", "h/b.ts"], (rsplit1 u).isSome)
      ∧ (∀ u ∈ ["h/a.ts", "h/b.ts"], ∀ v ∈ ["h/a.ts", "h/b.ts"],
          (rsplit1 u).map Prod.snd = (rsplit1 v).map Prod.snd → u = v))
    ∧ Cache.merge "d"
        (downloadAll (fun u => if u = "h/a.ts" then [3] else [4]) "d"
          ["h/b.ts", "h/a.ts"] (fun _ => none))
        ["h/a.ts", "h/b.ts"] Decoder.dflt
      = decodeChain Decoder.dflt
          (["h/a.ts", "h/b.ts"].map (fun u => if u = "h/a.ts" then [3] else [4])) :=
  ⟨⟨by decide, by decide, by decide⟩,
   C1_merge_eq_ordered_decode (fun u => if u = "h/a.ts" then [3] else [4]) "d"
     ["h/a.ts", "h/b.ts"] ["h/b.ts", "h/a.ts"] Decoder.dflt
     (by decide) (by decide) (by decide)⟩

/-! ## Claims C4 and C7: root-line classification and variant flattening -/

/-- A successful `ivStep` only rewrites the dict's `IV` entry: the two
URL lists are unchanged. -/
theorem ivStep_lists (d0 : List (String × AttrVal)) (stx st2 : HLSR)
    (h : ivStep d0 stx = Except.ok st2) :
    st2.m3u8_url_list = stx.m3u8_url_list ∧ st2.ts_url_list = stx.ts_url_list := by
  simp only [ivStep] at h
  split at h
  · split at h
    · cases h
      exact ⟨rfl, rfl⟩
    · exact Except.noConfusion h
  · cases h
    exact ⟨rfl, rfl⟩

/-- A successful `parseLine` on a comment line only touches the
encryption fields: the two URL lists are unchanged. -/
theorem parseLine_comment_lists (uj : String → String → String) (bs : BS)
    (urlBase : String) (st : HLSR) (line : String) (st2 : HLSR)
    (hc : pyStartswith line "#" = true)
    (h : parseLine uj bs urlBase st line = Except.ok st2) :
    st2.m3u8_url_list = st.m3u8_url_list ∧ st2.ts_url_list = st.ts_url_list := by
  simp only [parseLine] at h
  rw [if_neg (by simp [hc])] at h
  by_cases hk : pyStartswith line "#EXT-X-KEY:" = true
  · rw [if_pos hk] at h
    cases hpk : parse_ext_x_key line with
    | error e => rw [hpk] at h; exact Except.noConfusion h
    | ok attrs =>
      simp only [hpk] at h
      cases hu : dictGet (attrs.map fun kv => (kv.1, AttrVal.s kv.2)) "URI" with
      | none =>
        simp only [hu] at h
        have h2 := ivStep_lists _ _ _ h
        exact h2
      | some av =>
        cases av with
        | b bb =>
          simp only [hu] at h
          have h2 := ivStep_lists _ _ _ h
          exact h2
        | s u =>
          simp only [hu] at h
          cases hb : bs.get_bytes (uj urlBase (pyReplace u "\"" "")) with
          | error e => simp only [hb] at h; exact Except.noConfusion h
          | ok kb =>
            simp only [hb] at h
            have h2 := ivStep_lists _ _ _ h
            exact h2
  · rw [if_neg hk] at h
    cases h
    exact ⟨rfl, rfl⟩

/-- `parseLine` on a non-comment line appends the resolved line to each
list whose suffix test succeeds. -/
theorem parseLine_noncomment (uj : String → String → String) (bs : BS)
    (urlBase : String) (st : HLSR) (line : String)
    (hc : pyStartswith line "#" = false) :
    parseLine uj bs urlBase st line = Except.ok
      { st with
        m3u8_url_list := st.m3u8_url_list
          ++ (if pyEndswith line "m3u8" then [uj urlBase line] else []),
        ts_url_list := st.ts_url_list
          ++ (if pyEndswith line "ts" then [uj urlBase line] else []) } := by
  simp only [parseLine, hc]
  by_cases h1 : pyEndswith line "m3u8" <;> by_cases h2 : pyEndswith line "ts" <;>
    simp [h1, h2]

/-- The root-line loop collects exactly the non-comment lines with the
`m3u8` / `ts` suffixes, in order, resolved against the base. -/
theorem parseLines_lists (uj : String → String → String) (bs : BS) (urlBase : String) :
    ∀ (lines : List String) (st st2 : HLSR),
      parseLines uj bs urlBase st lines = Except.ok st2 →
      st2.m3u8_url_list = st.m3u8_url_list
          ++ (lines.filter (fun l => !(pyStartswith l "#") && pyEndswith l "m3u8")).map (uj urlBase)
        ∧ st2.ts_url_list = st.ts_url_list
          ++ (lines.filter (fun l => !(pyStartswith l "#") && pyEndswith l "ts")).map (uj urlBase) := by
  intro lines
  induction lines with
  | nil =>
    intro st st2 h
    cases h
    simp
  | cons l ls ih =>
    intro st st2 h
    simp only [parseLines] at h
    cases hl : parseLine uj bs urlBase st l with
    | error e => rw [hl] at h; exact Except.noConfusion h
    | ok st1 =>
      rw [hl] at h
      obtain ⟨ihm, ihts⟩ := ih st1 st2 h
      by_cases hc : pyStartswith l "#" = true
      · obtain ⟨hm, hts⟩ := parseLine_comment_lists uj bs urlBase st l st1 hc hl
        constructor
        · rw [ihm, hm]
          simp [List.filter_cons, hc]
        · rw [ihts, hts]
          simp [List.filter_cons, hc]
      · have hc2 : pyStartswith l "#" = false := by
          cases hcv : pyStartswith l "#"
          · rfl
          · exact absurd hcv hc
        rw [parseLine_noncomment uj bs urlBase st l hc2] at hl
        cases hl
        constructor
        · rw [ihm]
          by_cases h1 : pyEndswith l "m3u8" <;>
            simp [List.filter_cons, hc2, h1]
        · rw [ihts]
          by_cases h1 : pyEndswith l "ts" <;>
            simp [List.filter_cons, hc2, h1]

/-- The inner fold of `variantStep` appends exactly the resolved
`ts`-suffixed non-comment lines. -/
theorem tsScanFold (uj : String → String → String) (urlBase : String) :
    ∀ (ls : List String) (st : HLSR),
      ls.foldl (fun st2 l =>
          if pyStartswith l "#" = false ∧ pyEndswith l "ts" = true then
            { st2 with ts_url_list := st2.ts_url_list ++ [uj urlBase l] }
          else st2) st
        = { st with ts_url_list := st.ts_url_list
            ++ (ls.filter (fun l => !(pyStartswith l "#") && pyEndswith l "ts")).map (uj urlBase) } := by
  intro ls
  induction ls with
  | nil => intro st; simp
  | cons l ls ih =>
    intro st
    rw [List.foldl_cons]
    by_cases h1 : pyStartswith l "#" = false ∧ pyEndswith l "ts" = true
    · rw [if_pos h1, ih]
      simp [List.filter_cons, h1.1, h1.2]
    · rw [if_neg h1, ih]
      have h2 : (!(pyStartswith l "#") && pyEndswith l "ts") = false := by
        cases hx : pyStartswith l "#" <;> cases hy : pyEndswith l "ts" <;> simp_all
      simp [List.filter_cons, h2]

/-- `variantStep` on a fetchable variant appends its resolved segment
lines (resolved against the ROOT base it is given). -/
theorem variantStep_ok (uj : String → String → String) (bs : BS) (urlBase : String)
    (st : HLSR) (v vt : String)
    (h : bs.get_str v = Except.ok vt) :
    variantStep uj bs urlBase st v = Except.ok
      { st with ts_url_list := st.ts_url_list
          ++ ((pySplit vt "\n").filter
              (fun l => !(pyStartswith l "#") && pyEndswith l "ts")).map (uj urlBase) } := by
  simp only [variantStep, h, tsScanFold]

/-- The variant loop appends, variant by variant in order, each
variant's resolved segment lines; it never touches the other fields. -/
theorem variantLoop_ts (uj : String → String → String) (bs : BS) (urlBase : String) :
    ∀ (vs : List String) (st st2 : HLSR) (vtexts : List String),
      mapGetStr bs vs = Except.ok vtexts →
      variantLoop uj bs urlBase st vs = Except.ok st2 →
      st2.ts_url_list = st.ts_url_list
          ++ (vtexts.map (fun t =>
              ((pySplit t "\n").filter
                (fun l => !(pyStartswith l "#") && pyEndswith l "ts")).map (uj urlBase))).flatten
        ∧ st2.m3u8_url_list = st.m3u8_url_list := by
  intro vs
  induction vs with
  | nil =>
    intro st st2 vtexts hm h
    cases hm
    cases h
    simp
  | cons v vs ih =>
    intro st st2 vtexts hm h
    simp only [mapGetStr] at hm
    simp only [variantLoop] at h
    cases hg : bs.get_str v with
    | error e => rw [hg] at hm; exact Except.noConfusion hm
    | ok vt =>
      simp only [hg] at hm
      cases hms : mapGetStr bs vs with
      | error e => simp only [hms] at hm; exact Except.noConfusion hm
      | ok vts =>
        simp only [hms] at hm
        cases hm
        rw [variantStep_ok uj bs urlBase st v vt hg] at h
        simp only [] at h
        obtain ⟨hts, hm3⟩ := ih _ st2 vts hms h
        constructor
        · rw [hts]
          simp [List.append_assoc]
        · rw [hm3]

/-- A successful variant loop leaves `m3u8_url_list` unchanged and only
appends to `ts_url_list`. -/
theorem variantLoop_appends (uj : String → String → String) (bs : BS) (urlBase : String) :
    ∀ (vs : List String) (st st2 : HLSR),
      variantLoop uj bs urlBase st vs = Except.ok st2 →
      st2.m3u8_url_list = st.m3u8_url_list
        ∧ ∃ extra, st2.ts_url_list = st.ts_url_list ++ extra := by
  intro vs
  induction vs with
  | nil =>
    intro st st2 h
    cases h
    exact ⟨rfl, [], by simp⟩
  | cons v vs ih =>
    intro st st2 h
    simp only [variantLoop] at h
    cases hg : bs.get_str v with
    | error e =>
      rw [variantStep] at h
      rw [hg] at h
      exact Except.noConfusion h
    | ok vt =>
      rw [variantStep_ok uj bs urlBase st v vt hg] at h
      simp only [] at h
      obtain ⟨hm, extra, hts⟩ := ih _ st2 h
      refine ⟨hm,
        ((pySplit vt "\n").filter
          (fun l => !(pyStartswith l "#") && pyEndswith l "ts")).map (uj urlBase) ++ extra, ?_⟩
      rw [hts]
      simp [List.append_assoc]

/-- Claim C4 (amended): a non-comment root line is collected as a
variant-playlist reference iff it ends with `"m3u8"` and as a direct
segment reference iff it ends with `"ts"` — the code does not require the
dot — resolved against the root directory, in root order; lines with
neither suffix are ignored (the segment list may continue with
variant-derived entries). -/
theorem C4_suffix_classification
    (uj : String → String → String) (bs : BS) (url urlDir udl text : String)
    (lines : List String) (hls : HLSR)
    (h1 : rsplit1 url = some (urlDir, udl))
    (h2 : bs.get_str url = Except.ok text)
    (h3 : pySplit text "\n" = lines)
    (h4 : HLS.parse uj bs url = Except.ok hls) :
    hls.m3u8_url_list
        = (lines.filter (fun l => !(pyStartswith l "#") && pyEndswith l "m3u8")).map
            (uj (urlDir ++ "/"))
      ∧ ∃ variantTs, hls.ts_url_list
        = (lines.filter (fun l => !(pyStartswith l "#") && pyEndswith l "ts")).map
            (uj (urlDir ++ "/")) ++ variantTs := by
  simp only [HLS.parse, h1, h2, h3] at h4
  cases hroot : parseLines uj bs (urlDir ++ "/") (HLSR.mk none none [] []) lines with
  | error e => rw [hroot] at h4; exact Except.noConfusion h4
  | ok st1 =>
    simp only [hroot] at h4
    obtain ⟨hm, hts⟩ := parseLines_lists uj bs (urlDir ++ "/") lines _ _ hroot
    obtain ⟨hm2, extra, hts2⟩ := variantLoop_appends uj bs (urlDir ++ "/") _ _ _ h4
    constructor
    · rw [hm2, hm]
      simp
    · exact ⟨extra, by rw [hts2, hts]; simp⟩

/-- Witness: a two-segment playlist with no variants. -/
theorem C4_suffix_classification_witness :
    (rsplit1 "h/p.m3u8" = some ("h", "p.m3u8")
      ∧ pySplit "seg1.ts\nseg2.ts" "\n" = ["seg1.ts", "seg2.ts"])
    ∧ ((HLSR.mk none none [] ["h/seg1.ts", "h/seg2.ts"]).m3u8_url_list
        = ((["seg1.ts", "seg2.ts"].filter
            (fun l => !(pyStartswith l "#") && pyEndswith l "m3u8")).map
              ((fun b r => b ++ r) ("h" ++ "/")))
      ∧ ∃ variantTs, (HLSR.mk none none [] ["h/seg1.ts", "h/seg2.ts"]).ts_url_list
        = ((["seg1.ts", "seg2.ts"].filter
            (fun l => !(pyStartswith l "#") && pyEndswith l "ts")).map
              ((fun b r => b ++ r) ("h" ++ "/"))) ++ variantTs) :=
  ⟨⟨by decide, by decide⟩,
   C4_suffix_classification (fun b r => b ++ r)
     ⟨fun _ => Except.ok [], fun u => if u = "h/p.m3u8" then Except.ok "seg1.ts\nseg2.ts" else Except.ok ""⟩
     "h/p.m3u8" "h" "p.m3u8" "seg1.ts\nseg2.ts" ["seg1.ts", "seg2.ts"]
     (HLSR.mk none none [] ["h/seg1.ts", "h/seg2.ts"])
     (by decide) (by decide) (by decide) (by decide)⟩

/-- Claim C7: the parsed segment list is the root-level direct segment
references in root order, followed by the segment references of each
variant playlist in the order the variants were collected, order
preserved within each — and variant segment lines are resolved against
the ROOT playlist's directory `urlDir ++ "/"`, not the variant's. -/
theorem C7_variant_flattening
    (uj : String → String → String) (bs : BS) (url urlDir udl text : String)
    (lines : List String) (hls : HLSR) (vtexts : List String)
    (h1 : rsplit1 url = some (urlDir, udl))
    (h2 : bs.get_str url = Except.ok text)
    (h3 : pySplit text "\n" = lines)
    (h4 : HLS.parse uj bs url = Except.ok hls)
    (h5 : mapGetStr bs hls.m3u8_url_list = Except.ok vtexts) :
    hls.ts_url_list
      = (lines.filter (fun l => !(pyStartswith l "#") && pyEndswith l "ts")).map
          (uj (urlDir ++ "/"))
        ++ (vtexts.map (fun t =>
            ((pySplit t "\n").filter (fun l => !(pyStartswith l "#") && pyEndswith l "ts")).map
              (uj (urlDir ++ "/")))).flatten := by
  simp only [HLS.parse, h1, h2, h3] at h4
  cases hroot : parseLines uj bs (urlDir ++ "/") (HLSR.mk none none [] []) lines with
  | error e => rw [hroot] at h4; exact Except.noConfusion h4
  | ok st1 =>
    simp only [hroot] at h4
    obtain ⟨hm, hts⟩ := parseLines_lists uj bs (urlDir ++ "/") lines _ _ hroot
    obtain ⟨hm2, _⟩ := variantLoop_appends uj bs (urlDir ++ "/") _ _ _ h4
    rw [hm2] at h5
    obtain ⟨hts2, _⟩ := variantLoop_ts uj bs (urlDir ++ "/") _ _ _ _ h5 h4
    rw [hts2, hts]
    simp

/-- Witness: the spec's own instance — variants `[v1, v2]` holding
segments `[a, b]` and `[c, d]` flatten to `[a, b, c, d]`. -/
theorem C7_variant_flattening_witness :
    (rsplit1 "h/root.m3u8" = some ("h", "root.m3u8")
      ∧ pySplit "v1.m3u8\nv2.m3u8" "\n" = ["v1.m3u8", "v2.m3u8"]
      ∧ HLS.parse (fun b r => b ++ r)
          ⟨fun _ => Except.ok [],
           fun u =>
             if u = "h/root.m3u8" then Except.ok "v1.m3u8\nv2.m3u8"
             else if u = "h/v1.m3u8" then Except.ok "a.ts\nb.ts"
             else if u = "h/v2.m3u8" then Except.ok "c.ts\nd.ts"
             else Except.ok ""⟩
          "h/root.m3u8"
        = Except.ok (HLSR.mk none none ["h/v1.m3u8", "h/v2.m3u8"]
            ["h/a.ts", "h/b.ts", "h/c.ts", "h/d.ts"]))
    ∧ (HLSR.mk none none ["h/v1.m3u8", "h/v2.m3u8"]
        ["h/a.ts", "h/b.ts", "h/c.ts", "h/d.ts"]).ts_url_list
      = ((["v1.m3u8", "v2.m3u8"].filter
            (fun l => !(pyStartswith l "#") && pyEndswith l "ts")).map
              ((fun b r => b ++ r) ("h" ++ "/")))
        ++ ((["a.ts\nb.ts", "c.ts\nd.ts"].map (fun t =>
            ((pySplit t "\n").filter (fun l => !(pyStartswith l "#") && pyEndswith l "ts")).map
              ((fun b r => b ++ r) ("h" ++ "/")))).flatten) :=
  ⟨⟨by decide, by decide, by decide⟩,
   C7_variant_flattening (fun b r => b ++ r)
     ⟨fun _ => Except.ok [],
      fun u =>
        if u = "h/root.m3u8" then Except.ok "v1.m3u8\nv2.m3u8"
        else if u = "h/v1.m3u8" then Except.ok "a.ts\nb.ts"
        else if u = "h/v2.m3u8" then Except.ok "c.ts\nd.ts"
        else Except.ok ""⟩
     "h/root.m3u8" "h" "root.m3u8" "v1.m3u8\nv2.m3u8" ["v1.m3u8", "v2.m3u8"]
     (HLSR.mk none none ["h/v1.m3u8", "h/v2.m3u8"] ["h/a.ts", "h/b.ts", "h/c.ts", "h/d.ts"])
     ["a.ts\nb.ts", "c.ts\nd.ts"]
     (by decide) (by decide) (by decide) (by decide) (by decide)⟩

/-! ## Claim C9 (amended): verbatim attributes, quotes stripped only for URI -/

/-- Claim C9 (amended): the attribute list is parsed verbatim into the
dict; quotes are stripped only from the `URI` value, just before the key
fetch — the fetched location is `uj base (u.replace "\"" "")`.  The `IV`
hex decode reads the raw value (minus its first two characters) and the
`METHOD` comparison in `get_decoder` uses the raw value, quotes
included. -/
theorem C9_attr_quote_handling
    (uj : String → String → String) (bs : BS)
    (url urlDir udl text line rest c1 c2 c3 m u w : String)
    (kb ivb : List Nat)
    (h1 : rsplit1 url = some (urlDir, udl))
    (h2 : bs.get_str url = Except.ok text)
    (h3 : pySplit text "\n" = [line])
    (h4 : pyStartswith line "#" = true)
    (h5 : pyStartswith line "#EXT-X-KEY:" = true)
    (h6 : pySplit line "#EXT-X-KEY:" = ["", rest])
    (h7 : pySplit rest "," = [c1, c2, c3])
    (h8 : pySplit c1 "=" = ["METHOD", m])
    (h9 : pySplit c2 "=" = ["URI", u])
    (h10 : pySplit c3 "=" = ["IV", w])
    (h11 : bs.get_bytes (uj (urlDir ++ "/") (pyReplace u "\"" "")) = Except.ok kb)
    (h12 : fromhex (pyDrop w 2) = some ivb) :
    HLS.parse uj bs url
      = Except.ok (HLSR.mk
          (some [("METHOD", AttrVal.s m), ("URI", AttrVal.s u), ("IV", AttrVal.b ivb)])
          (some kb) [] [])
    ∧ HLSR.get_decoder (HLSR.mk
          (some [("METHOD", AttrVal.s m), ("URI", AttrVal.s u), ("IV", AttrVal.b ivb)])
          (some kb) [] [])
      = (if m = "AES-128" then AESDecoder.new (some kb) (AttrVal.b ivb)
         else Except.ok Decoder.dflt) := by
  have hpk : parse_ext_x_key line
      = Except.ok [("METHOD", m), ("URI", u), ("IV", w)] := by
    simp [parse_ext_x_key, h6, keyAttrsLoop, h7, h8, h9, h10, dictIns]
  constructor
  · simp [HLS.parse, h1, h2, h3, parseLines, parseLine, h4, h5, hpk, dictGet, ivStep,
      dictIns, h11, h12, variantLoop]
  · by_cases hm : m = "AES-128" <;> simp [HLSR.get_decoder, dictGet, hm]

/-- Witness: the spec's own example line, with an unquoted method and a
quoted URI. -/
theorem C9_attr_quote_handling_witness :
    (pySplit "#EXT-X-KEY:METHOD=AES-128,URI=\"k.bin\",IV=0x000102030405060708090a0b0c0d0e0f"
        "#EXT-X-KEY:"
      = ["", "METHOD=AES-128,URI=\"k.bin\",IV=0x000102030405060708090a0b0c0d0e0f"]
      ∧ fromhex (pyDrop "0x000102030405060708090a0b0c0d0e0f" 2)
        = some [0, 1, 2, 3, 4, 5, 6, 7, 8, 9, 10, 11, 12, 13, 14, 15])
    ∧ (HLS.parse (fun b r => b ++ r)
        ⟨fun v => if v = "h/k.bin" then Except.ok (List.replicate 16 7) else Except.ok [],
         fun v =>
           if v = "h/p.m3u8" then
             Except.ok "#EXT-X-KEY:METHOD=AES-128,URI=\"k.bin\",IV=0x000102030405060708090a0b0c0d0e0f"
           else Except.ok ""⟩
        "h/p.m3u8"
      = Except.ok (HLSR.mk
          (some [("METHOD", AttrVal.s "AES-128"), ("URI", AttrVal.s "\"k.bin\""),
                 ("IV", AttrVal.b [0, 1, 2, 3, 4, 5, 6, 7, 8, 9, 10, 11, 12, 13, 14, 15])])
          (some (List.replicate 16 7)) [] [])
    ∧ HLSR.get_decoder (HLSR.mk
          (some [("METHOD", AttrVal.s "AES-128"), ("URI", AttrVal.s "\"k.bin\""),
                 ("IV", AttrVal.b [0, 1, 2, 3, 4, 5, 6, 7, 8, 9, 10, 11, 12, 13, 14, 15])])
          (some (List.replicate 16 7)) [] [])
      = (if "AES-128" = "AES-128" then
          AESDecoder.new (some (List.replicate 16 7))
            (AttrVal.b [0, 1, 2, 3, 4, 5, 6, 7, 8, 9, 10, 11, 12, 13, 14, 15])
         else Except.ok Decoder.dflt)) :=
  ⟨⟨by decide, by decide⟩,
   C9_attr_quote_handling (fun b r => b ++ r)
     ⟨fun v => if v = "h/k.bin" then Except.ok (List.replicate 16 7) else Except.ok [],
      fun v =>
        if v = "h/p.m3u8" then
          Except.ok "#EXT-X-KEY:METHOD=AES-128,URI=\"k.bin\",IV=0x000102030405060708090a0b0c0d0e0f"
        else Except.ok ""⟩
     "h/p.m3u8" "h" "p.m3u8"
     "#EXT-X-KEY:METHOD=AES-128,URI=\"k.bin\",IV=0x000102030405060708090a0b0c0d0e0f"
     "#EXT-X-KEY:METHOD=AES-128,URI=\"k.bin\",IV=0x000102030405060708090a0b0c0d0e0f"
     "METHOD=AES-128,URI=\"k.bin\",IV=0x000102030405060708090a0b0c0d0e0f"
     "METHOD=AES-128" "URI=\"k.bin\"" "IV=0x000102030405060708090a0b0c0d0e0f"
     "AES-128" "\"k.bin\"" "0x000102030405060708090a0b0c0d0e0f"
     (List.replicate 16 7) [0, 1, 2, 3, 4, 5, 6, 7, 8, 9, 10, 11, 12, 13, 14, 15]
     (by decide) (by decide) (by decide) (by decide) (by decide) (by decide) (by decide)
     (by decide) (by decide) (by decide) (by decide) (by decide)⟩

/-! ## Claim C10 (amended): exactly when key-line parsing raises -/

/-- The attribute loop raises exactly when some chunk's `=`-split does
not have exactly two parts, independently of the accumulator. -/
theorem keyAttrsLoop_error :
    ∀ (chunks : List String) (acc : List (String × String)),
      (∃ e, keyAttrsLoop acc chunks = Except.error e)
        ↔ ∃ c ∈ chunks, (pySplit c "=").length ≠ 2 := by
  intro chunks
  induction chunks with
  | nil => intro acc; simp [keyAttrsLoop]
  | cons c cs ih =>
    intro acc
    simp only [keyAttrsLoop]
    rcases hsp : pySplit c "=" with _ | ⟨k, _ | ⟨v, _ | ⟨z, zs⟩⟩⟩
    · constructor
      · intro _; exact ⟨c, List.mem_cons_self c cs, by rw [hsp]; simp⟩
      · intro _; exact ⟨"ValueError", rfl⟩
    · constructor
      · intro _; exact ⟨c, List.mem_cons_self c cs, by rw [hsp]; simp⟩
      · intro _; exact ⟨"ValueError", rfl⟩
    · simp [hsp, ih]
    · constructor
      · intro _; exact ⟨c, List.mem_cons_self c cs, by rw [hsp]; simp⟩
      · intro _; exact ⟨"ValueError", rfl⟩

/-- Claim C10 (amended): parsing an `#EXT-X-KEY:` line raises if and only
if some comma-chunk of the attribute text does not contain exactly one
`=` (equivalently, its `=`-split does not have exactly two parts).  An
attribute value containing `=` always raises; a quoted URI containing a
comma raises only when a resulting chunk lacks exactly one `=`. -/
theorem C10_raise_iff_bad_chunk (line rest : String)
    (h : (pySplit line "#EXT-X-KEY:").get? 1 = some rest) :
    (∃ e, parse_ext_x_key line = Except.error e)
      ↔ ∃ c ∈ pySplit rest ",", (pySplit c "=").length ≠ 2 := by
  simp only [parse_ext_x_key, h]
  exact keyAttrsLoop_error (pySplit rest ",") []

/-- Witness: a key line whose only chunk has no `=` raises. -/
theorem C10_raise_iff_bad_chunk_witness :
    (pySplit "#EXT-X-KEY:A" "#EXT-X-KEY:").get? 1 = some "A"
    ∧ ((∃ e, parse_ext_x_key "#EXT-X-KEY:A" = Except.error e)
        ↔ ∃ c ∈ pySplit "A" ",", (pySplit c "=").length ≠ 2) :=
  ⟨by decide, C10_raise_iff_bad_chunk "#EXT-X-KEY:A" "A" (by decide)⟩

/-! ## Claims C5 and C6 (amended): what the wait loop actually guarantees -/

/-- Inversion for a `start` step. -/
theorem dlStep_start (n w : Nat) (s s2 : DlState) (i : Nat)
    (h : dlStep n w s (DlEv.start i) = some s2) :
    i = s.nextStart ∧ i < n ∧
      s2 = { s with nextStart := s.nextStart + 1, running := s.running ++ [i] } := by
  simp only [dlStep] at h
  split at h
  · rename_i hc
    cases h
    exact ⟨hc.1, hc.2.1, rfl⟩
  · exact Option.noConfusion h

/-- Inversion for a `finish` step. -/
theorem dlStep_finish (n w : Nat) (s s2 : DlState) (i : Nat) (ok : Bool)
    (h : dlStep n w s (DlEv.finish i ok) = some s2) :
    i ∈ s.running ∧
      s2 = { s with running := s.running.erase i, doneQ := s.doneQ ++ [(i, ok)] } := by
  simp only [dlStep] at h
  split at h
  · rename_i hc
    cases h
    exact ⟨hc, rfl⟩
  · exact Option.noConfusion h

/-- Inversion for an `observe` step. -/
theorem dlStep_observe (n w : Nat) (s s2 : DlState)
    (h : dlStep n w s DlEv.observe = some s2) :
    s.raised = false ∧ s.doneQ ≠ [] ∧
      ((s.doneQ.any (fun p => !p.2) = true
          ∧ s2 = { s with doneQ := [], raised := true })
        ∨ (s.doneQ.any (fun p => !p.2) = false
          ∧ s2 = { s with doneQ := [], updates := s.updates ++ [s.doneQ.length] })) := by
  simp only [dlStep] at h
  split at h
  · rename_i hc
    split at h
    · rename_i hany
      cases h
      exact ⟨hc.1, hc.2, Or.inl ⟨hany, rfl⟩⟩
    · rename_i hany
      cases h
      exact ⟨hc.1, hc.2, Or.inr ⟨Bool.not_eq_true _ ▸ eq_false_of_ne_true hany, rfl⟩⟩
  · exact Option.noConfusion h

/-- Running a concatenation of traces. -/
theorem dlRun_append (n w : Nat) :
    ∀ (l1 l2 : List DlEv) (s : DlState),
      dlRun n w s (l1 ++ l2) = (dlRun n w s l1).bind (fun s1 => dlRun n w s1 l2) := by
  intro l1
  induction l1 with
  | nil => intro l2 s; rfl
  | cons e es ih =>
    intro l2 s
    simp only [List.cons_append, dlRun]
    cases hs : dlStep n w s e with
    | none => rfl
    | some s1 => exact ih l2 s1

/-- `raised` is monotone along a run. -/
theorem dlRun_raised_mono (n w : Nat) :
    ∀ (evs : List DlEv) (s s2 : DlState),
      dlRun n w s evs = some s2 → s.raised = true → s2.raised = true := by
  intro evs
  induction evs with
  | nil => intro s s2 h hr; cases h; exact hr
  | cons e es ih =>
    intro s s2 h hr
    simp only [dlRun] at h
    cases hs : dlStep n w s e with
    | none => rw [hs] at h; exact Option.noConfusion h
    | some s1 =>
      rw [hs] at h
      apply ih s1 s2 h
      cases e with
      | start i => obtain ⟨_, _, h2⟩ := dlStep_start n w s s1 i hs; rw [h2]; exact hr
      | finish i ok => obtain ⟨_, h2⟩ := dlStep_finish n w s s1 i ok hs; rw [h2]; exact hr
      | observe =>
        obtain ⟨hc, _, _⟩ := dlStep_observe n w s s1 hs
        rw [hc] at hr
        exact Bool.noConfusion hr

/-- After the driver has raised, no `observe` event is possible. -/
theorem dlRun_no_observe (n w : Nat) :
    ∀ (evs : List DlEv) (s s2 : DlState),
      dlRun n w s evs = some s2 → s.raised = true → DlEv.observe ∉ evs := by
  intro evs
  induction evs with
  | nil => intro s s2 _ _; exact List.not_mem_nil _
  | cons e es ih =>
    intro s s2 h hr
    simp only [dlRun] at h
    cases hs : dlStep n w s e with
    | none => rw [hs] at h; exact Option.noConfusion h
    | some s1 =>
      rw [hs] at h
      intro hmem
      rcases List.mem_cons.mp hmem with heq | hmem2
      · subst heq
        obtain ⟨hc, _, _⟩ := dlStep_observe n w s s1 hs
        rw [hc] at hr
        exact Bool.noConfusion hr
      · have hr1 : s1.raised = true := by
          cases e with
          | start i => obtain ⟨_, _, h2⟩ := dlStep_start n w s s1 i hs; rw [h2]; exact hr
          | finish i ok => obtain ⟨_, h2⟩ := dlStep_finish n w s s1 i ok hs; rw [h2]; exact hr
          | observe =>
            obtain ⟨hc, _, _⟩ := dlStep_observe n w s s1 hs
            rw [hc] at hr
            exact Bool.noConfusion hr
        exact ih s1 s2 h hr1 hmem2

/-- Every task index reached by `nextStart` has a `start` event in the
trace. -/
theorem dlRun_start_mem (n w : Nat) :
    ∀ (evs : List DlEv) (s s2 : DlState),
      dlRun n w s evs = some s2 →
      ∀ i, s.nextStart ≤ i → i < s2.nextStart → DlEv.start i ∈ evs := by
  intro evs
  induction evs with
  | nil =>
    intro s s2 h i h1 h2
    cases h
    omega
  | cons e es ih =>
    intro s s2 h i h1 h2
    simp only [dlRun] at h
    cases hs : dlStep n w s e with
    | none => rw [hs] at h; exact Option.noConfusion h
    | some s1 =>
      rw [hs] at h
      cases e with
      | start j =>
        obtain ⟨hj, _, h3⟩ := dlStep_start n w s s1 j hs
        by_cases hij : i = s.nextStart
        · rw [hj, hij]
          exact List.mem_cons_self _ _
        · have h4 : s1.nextStart = s.nextStart + 1 := by rw [h3]
          exact List.mem_cons_of_mem _ (ih s1 s2 h i (by omega) h2)
      | finish j ok =>
        obtain ⟨_, h3⟩ := dlStep_finish n w s s1 j ok hs
        have h4 : s1.nextStart = s.nextStart := by rw [h3]
        exact List.mem_cons_of_mem _ (ih s1 s2 h i (by omega) h2)
      | observe =>
        obtain ⟨_, _, hor⟩ := dlStep_observe n w s s1 hs
        have h4 : s1.nextStart = s.nextStart := by
          rcases hor with ⟨_, h3⟩ | ⟨_, h3⟩ <;> rw [h3]
        exact List.mem_cons_of_mem _ (ih s1 s2 h i (by omega) h2)

/-- Every queued completion comes from a `finish` event of the trace (or
was queued at the start). -/
theorem dlRun_doneQ_src (n w : Nat) :
    ∀ (evs : List DlEv) (s s2 : DlState),
      dlRun n w s evs = some s2 →
      ∀ p, p ∈ s2.doneQ → p ∈ s.doneQ ∨ DlEv.finish p.1 p.2 ∈ evs := by
  intro evs
  induction evs with
  | nil =>
    intro s s2 h p hp
    cases h
    exact Or.inl hp
  | cons e es ih =>
    intro s s2 h p hp
    simp only [dlRun] at h
    cases hs : dlStep n w s e with
    | none => rw [hs] at h; exact Option.noConfusion h
    | some s1 =>
      rw [hs] at h
      rcases ih s1 s2 h p hp with hin | hev
      · cases e with
        | start j =>
          obtain ⟨_, _, h3⟩ := dlStep_start n w s s1 j hs
          rw [h3] at hin
          exact Or.inl hin
        | finish j ok =>
          obtain ⟨_, h3⟩ := dlStep_finish n w s s1 j ok hs
          rw [h3] at hin
          rcases List.mem_append.mp hin with hin2 | hin2
          · exact Or.inl hin2
          · have hp2 : p = (j, ok) := by simpa using hin2
            rw [hp2]
            exact Or.inr (List.mem_cons_self _ _)
        | observe =>
          obtain ⟨_, _, hor⟩ := dlStep_observe n w s s1 hs
          have h3 : s1.doneQ = [] := by
            rcases hor with ⟨_, h4⟩ | ⟨_, h4⟩ <;> rw [h4]
          rw [h3] at hin
          exact absurd hin (List.not_mem_nil p)
      · exact Or.inr (List.mem_cons_of_mem _ hev)

/-- A raised final state means some task actually finished with a
failure (or a failure was queued / raised from the start). -/
theorem dlRun_raised_src (n w : Nat) :
    ∀ (evs : List DlEv) (s s2 : DlState),
      dlRun n w s evs = some s2 → s2.raised = true →
      s.raised = true ∨ (∃ p ∈ s.doneQ, p.2 = false)
        ∨ (∃ i, DlEv.finish i false ∈ evs) := by
  intro evs
  induction evs with
  | nil =>
    intro s s2 h hr
    cases h
    exact Or.inl hr
  | cons e es ih =>
    intro s s2 h hr
    simp only [dlRun] at h
    cases hs : dlStep n w s e with
    | none => rw [hs] at h; exact Option.noConfusion h
    | some s1 =>
      rw [hs] at h
      rcases ih s1 s2 h hr with h1 | h2 | h3
      · -- raised already after the first step
        cases e with
        | start j =>
          obtain ⟨_, _, h3⟩ := dlStep_start n w s s1 j hs
          rw [h3] at h1
          exact Or.inl h1
        | finish j ok =>
          obtain ⟨_, h3⟩ := dlStep_finish n w s s1 j ok hs
          rw [h3] at h1
          exact Or.inl h1
        | observe =>
          obtain ⟨_, _, hor⟩ := dlStep_observe n w s s1 hs
          rcases hor with ⟨hany, _⟩ | ⟨_, h4⟩
          · obtain ⟨p, hp, hp2⟩ := List.any_eq_true.mp hany
            exact Or.inr (Or.inl ⟨p, hp, by simpa using hp2⟩)
          · rw [h4] at h1
            exact Or.inl h1
      · -- a queued failure after the first step
        obtain ⟨p, hp, hpf⟩ := h2
        cases e with
        | start j =>
          obtain ⟨_, _, h3⟩ := dlStep_start n w s s1 j hs
          rw [h3] at hp
          exact Or.inr (Or.inl ⟨p, hp, hpf⟩)
        | finish j ok =>
          obtain ⟨_, h3⟩ := dlStep_finish n w s s1 j ok hs
          rw [h3] at hp
          rcases List.mem_append.mp hp with hp2 | hp2
          · exact Or.inr (Or.inl ⟨p, hp2, hpf⟩)
          · have hp3 : p = (j, ok) := by simpa using hp2
            rw [hp3] at hpf
            have hok : ok = false := hpf
            exact Or.inr (Or.inr ⟨j, by rw [hok] at hs ⊢; exact List.mem_cons_self _ _⟩)
        | observe =>
          obtain ⟨_, _, hor⟩ := dlStep_observe n w s s1 hs
          have h4 : s1.doneQ = [] := by
            rcases hor with ⟨_, h5⟩ | ⟨_, h5⟩ <;> rw [h5]
          rw [h4] at hp
          exact absurd hp (List.not_mem_nil p)
      · obtain ⟨i, hi⟩ := h3
        exact Or.inr (Or.inr ⟨i, List.mem_cons_of_mem _ hi⟩)

/-- Claim C5 (amended): in every complete run, every task starts (even
those queued when a failure was observed — `shutdown` drains the queue);
once the driver's state is raised no further completions are observed;
and a raised terminal result means some task really finished with a
failure. -/
theorem C5_failfast_behavior (n w : Nat) (evs : List DlEv) (s : DlState)
    (hrun : dlRun n w DlState.init evs = some s) (hfin : dlFinal n s) :
    (∀ i, i < n → DlEv.start i ∈ evs)
    ∧ (∀ k sk, stateAt n w evs k = some sk → sk.raised = true →
        DlEv.observe ∉ evs.drop k)
    ∧ (s.raised = true → ∃ i, DlEv.finish i false ∈ evs) := by
  refine ⟨?_, ?_, ?_⟩
  · intro i hi
    apply dlRun_start_mem n w evs DlState.init s hrun i (Nat.zero_le i)
    rw [hfin.1]
    exact hi
  · intro k sk hsk hr
    have hsplit : dlRun n w DlState.init (evs.take k ++ evs.drop k) = some s := by
      rw [List.take_append_drop]
      exact hrun
    rw [dlRun_append] at hsplit
    rw [show dlRun n w DlState.init (evs.take k) = some sk from hsk] at hsplit
    exact dlRun_no_observe n w (evs.drop k) sk s hsplit hr
  · intro hr
    rcases dlRun_raised_src n w evs DlState.init s hrun hr with h1 | h2 | h3
    · exact Bool.noConfusion h1
    · obtain ⟨p, hp, _⟩ := h2
      exact absurd hp (List.not_mem_nil p)
    · exact h3

/-- Witness: the 5-task / 4-worker trace in which task 0 fails first. -/
theorem C5_failfast_behavior_witness :
    (∀ i, i < 5 → DlEv.start i ∈
      [DlEv.start 0, DlEv.start 1, DlEv.start 2, DlEv.start 3,
       DlEv.finish 0 false, DlEv.observe, DlEv.start 4,
       DlEv.finish 1 true, DlEv.finish 2 true, DlEv.finish 3 true, DlEv.finish 4 true])
    ∧ (∀ k sk, stateAt 5 4
        [DlEv.start 0, DlEv.start 1, DlEv.start 2, DlEv.start 3,
         DlEv.finish 0 false, DlEv.observe, DlEv.start 4,
         DlEv.finish 1 true, DlEv.finish 2 true, DlEv.finish 3 true, DlEv.finish 4 true] k
          = some sk → sk.raised = true →
        DlEv.observe ∉
          ([DlEv.start 0, DlEv.start 1, DlEv.start 2, DlEv.start 3,
            DlEv.finish 0 false, DlEv.observe, DlEv.start 4,
            DlEv.finish 1 true, DlEv.finish 2 true, DlEv.finish 3 true,
            DlEv.finish 4 true].drop k))
    ∧ ((DlState.mk 5 [] [(1, true), (2, true), (3, true), (4, true)] true []).raised = true →
        ∃ i, DlEv.finish i false ∈
          [DlEv.start 0, DlEv.start 1, DlEv.start 2, DlEv.start 3,
           DlEv.finish 0 false, DlEv.observe, DlEv.start 4,
           DlEv.finish 1 true, DlEv.finish 2 true, DlEv.finish 3 true, DlEv.finish 4 true]) :=
  C5_failfast_behavior 5 4
    [DlEv.start 0, DlEv.start 1, DlEv.start 2, DlEv.start 3,
     DlEv.finish 0 false, DlEv.observe, DlEv.start 4,
     DlEv.finish 1 true, DlEv.finish 2 true, DlEv.finish 3 true, DlEv.finish 4 true]
    (DlState.mk 5 [] [(1, true), (2, true), (3, true), (4, true)] true [])
    (by decide) (by decide)

/-- The conserved count of a run that never raises: increments granted
plus completions queued plus tasks running plus tasks not yet started. -/
theorem dlRun_measure (n w : Nat) :
    ∀ (evs : List DlEv) (s s2 : DlState),
      dlRun n w s evs = some s2 → s2.raised = false → s.nextStart ≤ n →
      s2.nextStart ≤ n ∧
        s2.updates.sum + s2.doneQ.length + s2.running.length + (n - s2.nextStart)
          = s.updates.sum + s.doneQ.length + s.running.length + (n - s.nextStart) := by
  intro evs
  induction evs with
  | nil =>
    intro s s2 h hr hle
    cases h
    exact ⟨hle, rfl⟩
  | cons e es ih =>
    intro s s2 h hr hle
    simp only [dlRun] at h
    cases hs : dlStep n w s e with
    | none => rw [hs] at h; exact Option.noConfusion h
    | some s1 =>
      rw [hs] at h
      cases e with
      | start j =>
        obtain ⟨hj, hjn, h3⟩ := dlStep_start n w s s1 j hs
        subst h3
        obtain ⟨hle2, heq⟩ := ih _ s2 h hr (show s.nextStart + 1 ≤ n by omega)
        refine ⟨hle2, ?_⟩
        rw [heq]
        show s.updates.sum + s.doneQ.length + (s.running ++ [j]).length
            + (n - (s.nextStart + 1))
          = s.updates.sum + s.doneQ.length + s.running.length + (n - s.nextStart)
        simp only [List.length_append, List.length_cons, List.length_nil]
        omega
      | finish j ok =>
        obtain ⟨hjm, h3⟩ := dlStep_finish n w s s1 j ok hs
        subst h3
        obtain ⟨hle2, heq⟩ := ih _ s2 h hr hle
        refine ⟨hle2, ?_⟩
        rw [heq]
        show s.updates.sum + (s.doneQ ++ [(j, ok)]).length + (s.running.erase j).length
            + (n - s.nextStart)
          = s.updates.sum + s.doneQ.length + s.running.length + (n - s.nextStart)
        simp only [List.length_append, List.length_cons, List.length_nil,
          List.length_erase_of_mem hjm]
        have hpos : 0 < s.running.length := List.length_pos_of_mem hjm
        omega
      | observe =>
        obtain ⟨hc, hne, hor⟩ := dlStep_observe n w s s1 hs
        rcases hor with ⟨hany, h3⟩ | ⟨hany, h3⟩
        · subst h3
          have hr2 : s2.raised = true := dlRun_raised_mono n w es _ s2 h rfl
          rw [hr2] at hr
          exact Bool.noConfusion hr
        · subst h3
          obtain ⟨hle2, heq⟩ := ih _ s2 h hr hle
          refine ⟨hle2, ?_⟩
          rw [heq]
          show (s.updates ++ [s.doneQ.length]).sum + List.length []
              + s.running.length + (n - s.nextStart)
            = s.updates.sum + s.doneQ.length + s.running.length + (n - s.nextStart)
          simp [List.sum_append]
      
/-- Claim C6 (amended): in a fully successful run over `n` tasks the
`bar.update` increments — one per observed batch, each the batch's size —
sum to exactly `n`. -/
theorem C6_success_total_increments (n w : Nat) (evs : List DlEv) (s : DlState)
    (hrun : dlRun n w DlState.init evs = some s) (hfin : dlFinal n s)
    (hok : s.raised = false) :
    s.updates.sum = n := by
  obtain ⟨hle, heq⟩ := dlRun_measure n w evs DlState.init s hrun hok (Nat.zero_le n)
  have h1 : s.doneQ = [] := hfin.2.2 hok
  have h2 : s.running = [] := hfin.2.1
  have h3 : s.nextStart = n := hfin.1
  rw [h1, h2, h3] at heq
  simpa [DlState.init] using heq

/-- Witness: a one-task run whose single batch yields the increment 1. -/
theorem C6_success_total_increments_witness :
    (DlState.mk 1 [] [] false [1]).updates.sum = 1 :=
  C6_success_total_increments 1 4 [DlEv.start 0, DlEv.finish 0 true, DlEv.observe]
    (DlState.mk 1 [] [] false [1]) (by decide) (by decide) (by decide)
